import Mathlib

/-!
Shallow embedding of the VeilGame contract (contracts/VeilGame.sol).

Ciphertexts are modelled as their decrypted value together with the list of
principals currently authorized to decrypt the handle.  Every FHE primitive
that produces a new ciphertext (trivial encryption, select, subtraction,
decoding an input) yields a fresh handle with an empty authorization list;
the grant primitives `allowThis` / `allow` add the engine resp. a user to
the list, mirroring the FHEVM access-control semantics.
-/

namespace VeilGame

/-- Principals that can be authorized to decrypt a ciphertext handle:
the engine (the contract itself) or a user identity (an address,
modelled as a natural number). -/
inductive Principal where
  | engine : Principal
  | user : Nat → Principal
deriving DecidableEq

/-- A ciphertext handle: its decrypted value together with the list of
principals authorized to decrypt it. -/
structure Ct where
  val : Nat
  allowed : List Principal
deriving DecidableEq

/-- Trivial encryption of a 32-bit constant (FHE.asEuint32): fresh handle,
value reduced modulo 2^32, no authorizations yet. -/
def asEuint32 (n : Nat) : Ct := ⟨n % 2 ^ 32, []⟩

/-- Trivial encryption of an 8-bit constant (FHE.asEuint8). -/
def asEuint8 (n : Nat) : Ct := ⟨n % 2 ^ 8, []⟩

/-- Decoding a proved 8-bit input handle (FHE.fromExternal on an
externalEuint8): the decoded ciphertext carries an 8-bit value and no
authorizations. -/
def fromInput (v : Nat) : Ct := ⟨v % 2 ^ 8, []⟩

/-- Oblivious equality of a ciphertext with a plaintext scalar (FHE.eq). -/
def eqScalar (a : Ct) (n : Nat) : Bool := a.val == n

/-- Oblivious disequality of a ciphertext with a plaintext scalar (FHE.ne). -/
def neScalar (a : Ct) (n : Nat) : Bool := a.val != n

/-- Oblivious greater-or-equal between two ciphertexts (FHE.ge). -/
def geCt (a b : Ct) : Bool := decide (b.val ≤ a.val)

/-- Oblivious 32-bit subtraction (FHE.sub), wrapping modulo 2^32; the
result is a fresh handle. -/
def subCt32 (a b : Ct) : Ct :=
  ⟨(a.val % 2 ^ 32 + (2 ^ 32 - b.val % 2 ^ 32)) % 2 ^ 32, []⟩

/-- Oblivious select (FHE.select): returns a fresh handle holding the
value of the first branch when the encrypted boolean is true, of the
second branch otherwise. -/
def selectCt (c : Bool) (a b : Ct) : Ct := ⟨if c then a.val else b.val, []⟩

/-- Grant the engine (contract) decryption rights on a handle (FHE.allowThis). -/
def allowThis (c : Ct) : Ct := { c with allowed := Principal.engine :: c.allowed }

/-- Grant a user decryption rights on a handle (FHE.allow). -/
def allow (c : Ct) (a : Nat) : Ct := { c with allowed := Principal.user a :: c.allowed }

/-- STARTING_BALANCE constant of the contract. -/
def STARTING_BALANCE : Nat := 10000

/-- MAP_SIZE constant of the contract (number of tiles). -/
def MAP_SIZE : Nat := 9

/-- Per-player state: join flag, encrypted balance, 9 encrypted tiles. -/
structure PlayerState where
  joined : Bool
  balance : Ct
  tiles : Fin MAP_SIZE → Ct

/-- Contract storage: one PlayerState per address (the Solidity mapping,
with its zero-initialized default record). -/
structure GameState where
  players : Nat → PlayerState

/-- Errors raised by the contract (require failures / proof failure). -/
inductive GameError where
  | AlreadyJoined : GameError
  | NotJoined : GameError
  | IndexOutOfRange : GameError
  | InvalidProof : GameError
deriving DecidableEq

/-- Default (never-touched) player record of the storage mapping:
joined is false, balance and tiles are the zero handle. -/
def defaultPlayer : PlayerState := ⟨false, ⟨0, []⟩, fun _ => ⟨0, []⟩⟩

/-- The storage right after deployment: every record is the default. -/
def initialState : GameState := ⟨fun _ => defaultPlayer⟩

/-- Cost-table evaluator _buildingCost: chained oblivious selects over the
static table, starting from an encrypted zero accumulator; every entry is
evaluated, last match wins. -/
def buildingCost (buildingType : Ct) : Ct :=
  let cost0 := asEuint32 0
  let cost1 := selectCt (eqScalar buildingType 1) (asEuint32 100) cost0
  let cost2 := selectCt (eqScalar buildingType 2) (asEuint32 200) cost1
  let cost3 := selectCt (eqScalar buildingType 3) (asEuint32 400) cost2
  let cost4 := selectCt (eqScalar buildingType 4) (asEuint32 1000) cost3
  cost4

/-- joinGame: reverts with AlreadyJoined when the record is joined,
otherwise marks it joined, encrypts the starting balance, zeroes the nine
tiles, and grants engine + caller on every fresh handle. -/
def joinGame (s : GameState) (sender : Nat) : Except GameError GameState :=
  if (s.players sender).joined then .error .AlreadyJoined
  else
    let balance := allow (allowThis (asEuint32 STARTING_BALANCE)) sender
    let tiles : Fin MAP_SIZE → Ct := fun _ => allow (allowThis (asEuint8 0)) sender
    .ok ⟨Function.update s.players sender ⟨true, balance, tiles⟩⟩

/-- build: requires joined and a valid tile index, decodes the proved
input (InvalidProof when the proof fails, modelled as a missing value),
evaluates the cost table, forms the commit predicate, and rewrites the
balance and the target tile through unconditional selects, regranting
engine + caller on both fresh handles. -/
def build (s : GameState) (sender : Nat) (tileIndex : Nat) (input : Option Nat) :
    Except GameError GameState :=
  if (s.players sender).joined then
    if h : tileIndex < MAP_SIZE then
      match input with
      | none => .error .InvalidProof
      | some v =>
        let player := s.players sender
        let chosenType := fromInput v
        let cost := buildingCost chosenType
        let hasCost := neScalar cost 0
        let canAfford := geCt player.balance cost
        let shouldBuild := hasCost && canAfford
        let newBalance :=
          allow (allowThis (selectCt shouldBuild (subCt32 player.balance cost) player.balance)) sender
        let idx : Fin MAP_SIZE := ⟨tileIndex, h⟩
        let newTile :=
          allow (allowThis (selectCt shouldBuild chosenType (player.tiles idx))) sender
        .ok ⟨Function.update s.players sender
          { player with balance := newBalance, tiles := Function.update player.tiles idx newTile }⟩
    else .error .IndexOutOfRange
  else .error .NotJoined

/-- isJoined view: returns the join flag of the record, with no check. -/
def isJoined (s : GameState) (p : Nat) : Bool := (s.players p).joined

/-- getBalance view: returns the stored balance handle, with no check. -/
def getBalance (s : GameState) (p : Nat) : Ct := (s.players p).balance

/-- getTile view: bounds-checks the index and returns the stored tile
handle; it does not check the join flag. -/
def getTile (s : GameState) (p : Nat) (tileIndex : Nat) : Except GameError Ct :=
  if h : tileIndex < MAP_SIZE then .ok ((s.players p).tiles ⟨tileIndex, h⟩)
  else .error .IndexOutOfRange

/-- Plaintext reading of the cost table, used to state claims about the
oblivious evaluator. -/
def costOf (t : Nat) : Nat :=
  if t = 1 then 100 else if t = 2 then 200 else if t = 3 then 400
  else if t = 4 then 1000 else 0

/-- Publicly observable outcome of a call: the revert reason, or none on
success. -/
def outcome : Except GameError GameState → Option GameError
  | .error e => some e
  | .ok _ => none

/-- Post-state of a call under the ledger's revert semantics: the new
storage on success, the unchanged storage on a rejected call. -/
def resultState (s : GameState) : Except GameError GameState → GameState
  | .error _ => s
  | .ok t => t

/-- States reachable from deployment by any sequence of joinGame and
build calls. -/
inductive Reachable : GameState → Prop where
  | init : Reachable initialState
  | join : ∀ s a s2, Reachable s → joinGame s a = .ok s2 → Reachable s2
  | step : ∀ s a i inp s2, Reachable s → build s a i inp = .ok s2 → Reachable s2

/-- The commit predicate of a build, on plaintexts: the decoded type value
t has nonzero cost and the balance covers it. -/
def commitPred (bal t : Nat) : Bool :=
  (costOf t != 0) && decide (costOf t ≤ bal)

/-- The static cost table as an ordered list of (type-code, cost) pairs. -/
def costTable : List (Nat × Nat) := [(1, 100), (2, 200), (3, 400), (4, 1000)]

/-- Concrete storage in which every player is joined with balance 10000
and empty tiles; used to instantiate universally quantified theorems. -/
def sAllJoined : GameState := ⟨fun _ => ⟨true, ⟨10000, []⟩, fun _ => ⟨0, []⟩⟩⟩

/-- Concrete storage in which every player is joined with balance 9600
and every tile holding building type 3. -/
def sOccupied : GameState := ⟨fun _ => ⟨true, ⟨9600, []⟩, fun _ => ⟨3, []⟩⟩⟩

/-! ## Helper lemmas -/

@[simp] lemma allow_val (c : Ct) (a : Nat) : (allow c a).val = c.val := rfl

@[simp] lemma allowThis_val (c : Ct) : (allowThis c).val = c.val := rfl

@[simp] lemma selectCt_val (b : Bool) (x y : Ct) :
    (selectCt b x y).val = if b then x.val else y.val := rfl

@[simp] lemma allow_allowed (c : Ct) (a : Nat) :
    (allow c a).allowed = Principal.user a :: c.allowed := rfl

@[simp] lemma allowThis_allowed (c : Ct) :
    (allowThis c).allowed = Principal.engine :: c.allowed := rfl

@[simp] lemma selectCt_allowed (b : Bool) (x y : Ct) :
    (selectCt b x y).allowed = [] := rfl

@[simp] lemma fromInput_val (v : Nat) : (fromInput v).val = v % 2 ^ 8 := rfl

/-- Wrapping 32-bit subtraction agrees with truncated subtraction when the
subtrahend is covered and the minuend is in range. -/
lemma subCt32_val_of_le (a b : Ct) (hb : b.val ≤ a.val) (ha : a.val < 2 ^ 32) :
    (subCt32 a b).val = a.val - b.val := by
  have hb32 : b.val < 2 ^ 32 := lt_of_le_of_lt hb ha
  simp only [subCt32, Nat.mod_eq_of_lt ha, Nat.mod_eq_of_lt hb32]
  have h1 : a.val + (2 ^ 32 - b.val) = (a.val - b.val) + 2 ^ 32 := by omega
  rw [h1, Nat.add_mod_right, Nat.mod_eq_of_lt (by omega)]

/-- The oblivious cost evaluator decrypts to the plaintext cost table. -/
lemma buildingCost_val (c : Ct) : (buildingCost c).val = costOf c.val := by
  simp only [buildingCost, selectCt, eqScalar, asEuint32, costOf]
  rcases Nat.decEq c.val 1 with h1 | h1 <;>
    rcases Nat.decEq c.val 2 with h2 | h2 <;>
      rcases Nat.decEq c.val 3 with h3 | h3 <;>
        rcases Nat.decEq c.val 4 with h4 | h4 <;>
          simp_all

lemma costOf_le (t : Nat) : costOf t ≤ 1000 := by
  simp only [costOf]; split_ifs <;> omega

/-- The encrypted commit boolean of build decrypts to commitPred. -/
lemma commitPred_eq (s : GameState) (a v : Nat) :
    (neScalar (buildingCost (fromInput v)) 0
        && geCt (s.players a).balance (buildingCost (fromInput v)))
      = commitPred (s.players a).balance.val (v % 2 ^ 8) := by
  unfold commitPred neScalar geCt
  rw [buildingCost_val, fromInput_val]

lemma commitPred_true_iff (bal t : Nat) :
    commitPred bal t = true ↔ costOf t ≠ 0 ∧ costOf t ≤ bal := by
  simp [commitPred, bne_iff_ne]

lemma commitPred_false_iff (bal t : Nat) :
    commitPred bal t = false ↔ costOf t = 0 ∨ bal < costOf t := by
  rw [← Bool.not_eq_true, commitPred_true_iff]
  omega

/-- Characterization of a successful build: the exact post-storage. -/
lemma build_ok_char (s : GameState) (a i v : Nat)
    (hj : (s.players a).joined = true) (hi : i < MAP_SIZE) :
    build s a i (some v) = .ok ⟨Function.update s.players a
      { s.players a with
        balance := allow (allowThis (selectCt
          (commitPred (s.players a).balance.val (v % 2 ^ 8))
          (subCt32 (s.players a).balance (buildingCost (fromInput v)))
          (s.players a).balance)) a,
        tiles := Function.update (s.players a).tiles ⟨i, hi⟩
          (allow (allowThis (selectCt
            (commitPred (s.players a).balance.val (v % 2 ^ 8))
            (fromInput v) ((s.players a).tiles ⟨i, hi⟩))) a) }⟩ := by
  simp only [build, hj, if_true, dif_pos hi, commitPred_eq]

/-- Characterization of a successful join: the exact post-storage. -/
lemma joinGame_ok_char (s : GameState) (a : Nat)
    (hj : (s.players a).joined = false) :
    joinGame s a = .ok ⟨Function.update s.players a
      ⟨true, allow (allowThis (asEuint32 STARTING_BALANCE)) a,
        fun _ => allow (allowThis (asEuint8 0)) a⟩⟩ := by
  simp only [joinGame, hj, Bool.false_eq_true, if_false]

/-- Inversion of a successful build: the call was joined, in range, with a
proved input, and the post-storage is the select-rewritten record. -/
lemma build_ok_inv (s : GameState) (a i : Nat) (inp : Option Nat) (s2 : GameState)
    (heq : build s a i inp = .ok s2) :
    ∃ (v : Nat) (hi : i < MAP_SIZE), inp = some v ∧ (s.players a).joined = true ∧
      s2.players = Function.update s.players a
        { s.players a with
          balance := allow (allowThis (selectCt
            (commitPred (s.players a).balance.val (v % 2 ^ 8))
            (subCt32 (s.players a).balance (buildingCost (fromInput v)))
            (s.players a).balance)) a,
          tiles := Function.update (s.players a).tiles ⟨i, hi⟩
            (allow (allowThis (selectCt
              (commitPred (s.players a).balance.val (v % 2 ^ 8))
              (fromInput v) ((s.players a).tiles ⟨i, hi⟩))) a) } := by
  rcases Bool.eq_false_or_eq_true ((s.players a).joined) with hj | hj
  swap
  · simp [build, hj] at heq
  · by_cases hi : i < MAP_SIZE
    · cases inp with
      | none => simp [build, hj, hi] at heq
      | some v =>
        refine ⟨v, hi, rfl, hj, ?_⟩
        rw [build_ok_char s a i v hj hi] at heq
        simp only [Except.ok.injEq] at heq
        rw [← heq]
    · simp [build, hj, hi] at heq

/-- Inversion of a successful join: the record was not joined and the
post-storage is the freshly initialized record. -/
lemma joinGame_ok_inv (s : GameState) (a : Nat) (s2 : GameState)
    (heq : joinGame s a = .ok s2) :
    (s.players a).joined = false ∧
      s2.players = Function.update s.players a
        ⟨true, allow (allowThis (asEuint32 STARTING_BALANCE)) a,
          fun _ => allow (allowThis (asEuint8 0)) a⟩ := by
  rcases Bool.eq_false_or_eq_true ((s.players a).joined) with hj | hj
  swap
  · refine ⟨hj, ?_⟩
    rw [joinGame_ok_char s a hj] at heq
    simp only [Except.ok.injEq] at heq
    rw [← heq]
  · simp [joinGame, hj] at heq

/-! ## Claim theorems -/

/-- Claim C1: for every joined player and tile index in 0..8, a build with
encrypted type of decoded value t succeeds and, through the unconditional
selects, sets the new balance to balance − cost(t) and the tile to t
exactly when cost(t) ≠ 0 and balance ≥ cost(t); otherwise the decrypted
balance and the decrypted tile at that index are unchanged. -/
theorem build_select_semantics :
    ∀ (s : GameState) (a i v : Nat) (hi : i < MAP_SIZE),
    (s.players a).joined = true →
    (s.players a).balance.val < 2 ^ 32 →
    ∃ s2, build s a i (some v) = .ok s2 ∧
      ((costOf (v % 2 ^ 8) ≠ 0 ∧ costOf (v % 2 ^ 8) ≤ (s.players a).balance.val →
        (s2.players a).balance.val = (s.players a).balance.val - costOf (v % 2 ^ 8) ∧
        ((s2.players a).tiles ⟨i, hi⟩).val = v % 2 ^ 8) ∧
       (costOf (v % 2 ^ 8) = 0 ∨ (s.players a).balance.val < costOf (v % 2 ^ 8) →
        (s2.players a).balance.val = (s.players a).balance.val ∧
        ((s2.players a).tiles ⟨i, hi⟩).val = ((s.players a).tiles ⟨i, hi⟩).val)) := by
  intro s a i v hi hj hb
  refine ⟨_, build_ok_char s a i v hj hi, ?_, ?_⟩
  · intro hok
    have hcp : commitPred (s.players a).balance.val (v % 2 ^ 8) = true :=
      (commitPred_true_iff _ _).2 hok
    constructor
    · simp only [Function.update_same, allow_val, allowThis_val, selectCt_val, hcp, if_true]
      rw [subCt32_val_of_le _ _ (by rw [buildingCost_val, fromInput_val]; exact hok.2) hb,
        buildingCost_val, fromInput_val]
    · simp only [Function.update_same, allow_val, allowThis_val, selectCt_val, hcp, if_true,
        fromInput_val]
  · intro hno
    have hcp : commitPred (s.players a).balance.val (v % 2 ^ 8) = false :=
      (commitPred_false_iff _ _).2 hno
    constructor <;>
      simp only [Function.update_same, allow_val, allowThis_val, selectCt_val, hcp,
        Bool.false_eq_true, if_false]

/-- Witness for C1: in the all-joined storage, building type 3 at tile 2
succeeds, deducts 400 and stores 3. -/
theorem build_select_semantics_witness :
    ((resultState sAllJoined (build sAllJoined 0 2 (some 3))).players 0).balance.val = 9600 ∧
    (((resultState sAllJoined (build sAllJoined 0 2 (some 3))).players 0).tiles
      ⟨2, by decide⟩).val = 3 := by
  obtain ⟨s2, heq, hok, _⟩ :=
    build_select_semantics sAllJoined 0 2 3 (by decide) rfl (by decide)
  rw [heq]
  obtain ⟨hbal, htile⟩ := hok (by decide)
  exact ⟨hbal.trans (by decide), htile.trans (by decide)⟩

/-- Claim C2: joining from a not-yet-joined record succeeds, sets joined,
and initializes the decrypted balance to 10000 and all nine decrypted
cells to 0. -/
theorem joinGame_initializes :
    ∀ (s : GameState) (a : Nat), (s.players a).joined = false →
    ∃ s2, joinGame s a = .ok s2 ∧ (s2.players a).joined = true ∧
      (s2.players a).balance.val = STARTING_BALANCE ∧
      ∀ j : Fin MAP_SIZE, ((s2.players a).tiles j).val = 0 := by
  intro s a hj
  refine ⟨_, joinGame_ok_char s a hj, ?_, ?_, ?_⟩
  · simp only [Function.update_same]
  · simp only [Function.update_same, allow_val, allowThis_val, asEuint32, STARTING_BALANCE]
    norm_num
  · intro j
    simp only [Function.update_same, allow_val, allowThis_val, asEuint8, Nat.zero_mod]

/-- Witness for C2: joining from the deployment storage gives balance
10000 and a zero tile. -/
theorem joinGame_initializes_witness :
    (initialState.players 0).joined = false ∧
    ((resultState initialState (joinGame initialState 0)).players 0).joined = true ∧
    ((resultState initialState (joinGame initialState 0)).players 0).balance.val = 10000 ∧
    (((resultState initialState (joinGame initialState 0)).players 0).tiles
      ⟨4, by decide⟩).val = 0 := by
  obtain ⟨s2, heq, h1, h2, h3⟩ := joinGame_initializes initialState 0 rfl
  refine ⟨rfl, ?_⟩
  rw [heq]
  exact ⟨h1, h2, h3 _⟩

/-- Claim C3: the cost evaluator is the in-order fold of the static table
starting from an encrypted zero accumulator, and it decrypts to the
plaintext table: cost 1 ↦ 100, 2 ↦ 200, 3 ↦ 400, 4 ↦ 1000, and 0 on every
other type code. -/
theorem buildingCost_table :
    ∀ c : Ct,
      buildingCost c =
        costTable.foldl (fun acc e => selectCt (eqScalar c e.1) (asEuint32 e.2) acc)
          (asEuint32 0) ∧
      (buildingCost c).val = costOf c.val ∧
      costOf 1 = 100 ∧ costOf 2 = 200 ∧ costOf 3 = 400 ∧ costOf 4 = 1000 ∧
      (∀ t : Nat, t ≠ 1 → t ≠ 2 → t ≠ 3 → t ≠ 4 → costOf t = 0) := by
  intro c
  refine ⟨rfl, buildingCost_val c, by decide, by decide, by decide, by decide, ?_⟩
  intro t h1 h2 h3 h4
  simp [costOf, h1, h2, h3, h4]

/-- Witness for C3: type code 9 is unrecognized and costs 0. -/
theorem buildingCost_table_witness :
    (buildingCost (fromInput 9)).val = 0 ∧ costOf 9 = 0 := by
  obtain ⟨_, h, _, _, _, _, h5⟩ := buildingCost_table (fromInput 9)
  exact ⟨h.trans (by decide), h5 9 (by decide) (by decide) (by decide) (by decide)⟩

/-- Claim C4: after a successful joinGame the balance and all nine cell
handles, and after a successful build the balance and the rewritten cell
handle, are authorized for decryption by exactly the owning identity and
the engine. -/
theorem grants_exactly_owner_and_engine :
    ∀ (s : GameState) (a : Nat),
      (∀ s2, joinGame s a = .ok s2 →
        (∀ p, p ∈ (s2.players a).balance.allowed ↔
          p = Principal.user a ∨ p = Principal.engine) ∧
        ∀ j : Fin MAP_SIZE, ∀ p, p ∈ ((s2.players a).tiles j).allowed ↔
          p = Principal.user a ∨ p = Principal.engine) ∧
      (∀ i : Nat, ∀ inp : Option Nat, ∀ s2, ∀ hi : i < MAP_SIZE,
        build s a i inp = .ok s2 →
        (∀ p, p ∈ (s2.players a).balance.allowed ↔
          p = Principal.user a ∨ p = Principal.engine) ∧
        ∀ p, p ∈ ((s2.players a).tiles ⟨i, hi⟩).allowed ↔
          p = Principal.user a ∨ p = Principal.engine) := by
  intro s a
  constructor
  · intro s2 heq
    obtain ⟨-, hp⟩ := joinGame_ok_inv s a s2 heq
    constructor
    · intro p
      simp [hp, Function.update_same, asEuint32]
    · intro j p
      simp [hp, Function.update_same, asEuint8]
  · intro i inp s2 hi heq
    obtain ⟨v, hi2, -, -, hp⟩ := build_ok_inv s a i inp s2 heq
    constructor
    · intro p
      simp [hp, Function.update_same]
    · intro p
      simp [hp, Function.update_same]

/-- Witness for C4: after joining from deployment, the engine and the
owner are authorized on the new balance handle, and a stranger is not. -/
theorem grants_exactly_owner_and_engine_witness :
    (Principal.engine ∈
      ((resultState initialState (joinGame initialState 0)).players 0).balance.allowed) ∧
    (Principal.user 0 ∈
      (((resultState initialState (joinGame initialState 0)).players 0).tiles
        ⟨0, by decide⟩).allowed) ∧
    ¬ (Principal.user 1 ∈
      ((resultState initialState (joinGame initialState 0)).players 0).balance.allowed) := by
  obtain ⟨hjoin, -⟩ := grants_exactly_owner_and_engine initialState 0
  obtain ⟨hbal, htiles⟩ := hjoin (resultState initialState (joinGame initialState 0)) rfl
  refine ⟨(hbal _).2 (Or.inr rfl), (htiles ⟨0, by decide⟩ _).2 (Or.inl rfl), ?_⟩
  intro hmem
  rcases (hbal _).1 hmem with h | h <;> simp at h

/-- Claim C5: the public outcome of build does not depend on the secret
building type or on the secret balance: two calls from storages agreeing
on the join flag, with possibly different proved type values, yield the
same outcome; and for a joined caller with a valid index and proved input
the call always succeeds. -/
theorem build_outcome_secret_independent :
    ∀ (s1 s2 : GameState) (a i v1 v2 : Nat),
      (s1.players a).joined = (s2.players a).joined →
      outcome (build s1 a i (some v1)) = outcome (build s2 a i (some v2)) ∧
      ((s1.players a).joined = true → i < MAP_SIZE →
        ∃ t, build s1 a i (some v1) = .ok t) := by
  intro s1 s2 a i v1 v2 hj
  constructor
  · rcases Bool.eq_false_or_eq_true ((s1.players a).joined) with h1 | h1 <;>
      have h2 := hj ▸ h1
    · by_cases hi : i < MAP_SIZE <;> simp [build, h1, ← hj, hi, outcome]
    · simp [build, h1, ← hj, outcome]
  · intro hjt hi
    exact ⟨_, build_ok_char s1 a i v1 hjt hi⟩

/-- Witness for C5: the unaffordable request (type 200, unrecognized) and
the accepted one (type 1) from different balances give the same outcome. -/
theorem build_outcome_secret_independent_witness :
    outcome (build sAllJoined 0 0 (some 1)) = outcome (build sOccupied 0 0 (some 200)) ∧
    (initialState.players 0).joined = (initialState.players 1).joined := by
  obtain ⟨hout, hsucc⟩ := build_outcome_secret_independent sAllJoined sOccupied 0 0 1 200 rfl
  obtain ⟨t, -⟩ := hsucc rfl (by decide)
  exact ⟨hout, rfl⟩

/-- Claim C6: joinGame fails with AlreadyJoined iff the caller is joined;
build fails with NotJoined iff the caller is not joined, with
IndexOutOfRange iff joined and the index is out of 0..8, and with
InvalidProof iff joined, in range, and the proof fails; every rejected
call leaves the storage unchanged. -/
theorem error_taxonomy :
    ∀ (s : GameState) (a i : Nat) (inp : Option Nat),
      (joinGame s a = .error .AlreadyJoined ↔ (s.players a).joined = true) ∧
      (build s a i inp = .error .NotJoined ↔ (s.players a).joined = false) ∧
      (build s a i inp = .error .IndexOutOfRange ↔
        (s.players a).joined = true ∧ MAP_SIZE ≤ i) ∧
      (build s a i inp = .error .InvalidProof ↔
        (s.players a).joined = true ∧ i < MAP_SIZE ∧ inp = none) ∧
      (∀ e, joinGame s a = .error e → resultState s (joinGame s a) = s) ∧
      (∀ e, build s a i inp = .error e → resultState s (build s a i inp) = s) := by
  intro s a i inp
  have hres : ∀ r : Except GameError GameState, ∀ e, r = .error e → resultState s r = s := by
    intro r e he
    rw [he]
    rfl
  refine ⟨?_, ?_, ?_, ?_, hres _, hres _⟩ <;>
    rcases Bool.eq_false_or_eq_true ((s.players a).joined) with hj | hj <;>
      by_cases hi : i < MAP_SIZE <;> cases inp <;>
        simp [joinGame, build, hj, hi] <;> omega

/-- Witness for C6: an out-of-range build from a joined caller fails with
IndexOutOfRange and leaves the storage unchanged. -/
theorem error_taxonomy_witness :
    build sAllJoined 0 20 none = Except.error GameError.IndexOutOfRange ∧
    resultState sAllJoined (build sAllJoined 0 20 none) = sAllJoined := by
  obtain ⟨-, -, hrange, -, -, hkeep⟩ := error_taxonomy sAllJoined 0 20 none
  have herr := hrange.2 ⟨rfl, by decide⟩
  exact ⟨herr, hkeep _ herr⟩

/-- Counterexample to C7 as stated: in the deployment storage identity 5
has not joined, yet none of the read accessors rejects: getTile returns
the stored tile handle, getBalance returns the stored balance handle, and
isJoined returns false. -/
theorem accessors_not_rejecting_cex :
    (initialState.players 5).joined = false ∧
    getTile initialState 5 0 = Except.ok ⟨0, []⟩ ∧
    getBalance initialState 5 = ⟨0, []⟩ ∧
    isJoined initialState 5 = false := by
  exact ⟨rfl, rfl, rfl, rfl⟩

/-- Claim C7 (amended): for a not-joined record, build is rejected with
NotJoined, while the read accessors do not reject: isJoined returns
false, getBalance returns the stored handle, and getTile returns the
stored tile handle for every in-range index. -/
theorem notjoined_build_rejected_accessors_return :
    ∀ (s : GameState) (p i : Nat) (inp : Option Nat),
      (s.players p).joined = false →
      build s p i inp = .error .NotJoined ∧
      isJoined s p = false ∧
      getBalance s p = (s.players p).balance ∧
      ∀ hi : i < MAP_SIZE, getTile s p i = .ok ((s.players p).tiles ⟨i, hi⟩) := by
  intro s p i inp hj
  refine ⟨by simp [build, hj], hj, rfl, ?_⟩
  intro hi
  simp [getTile, hi]

/-- Witness for C7 (amended): identity 3 has not joined in the deployment
storage; build is rejected and getTile still returns the tile handle. -/
theorem notjoined_build_rejected_accessors_return_witness :
    build initialState 3 0 (some 1) = Except.error GameError.NotJoined ∧
    getTile initialState 3 0 = Except.ok ((initialState.players 3).tiles ⟨0, by decide⟩) := by
  obtain ⟨hb, -, -, ht⟩ :=
    notjoined_build_rejected_accessors_return initialState 3 0 (some 1) rfl
  exact ⟨hb, ht (by decide)⟩

/-- Claim C8: a build by identity a at index i can only change a's
balance and a's tile i: every other tile of a, a's join flag, and every
other identity's record are unchanged; a join by a leaves every other
identity's record unchanged. -/
theorem frame_only_target_changes :
    ∀ (s : GameState) (a : Nat),
      (∀ i : Nat, ∀ inp : Option Nat, ∀ s2, build s a i inp = .ok s2 →
        (∀ b, b ≠ a → s2.players b = s.players b) ∧
        (s2.players a).joined = (s.players a).joined ∧
        (∀ j : Fin MAP_SIZE, (j : Nat) ≠ i →
          (s2.players a).tiles j = (s.players a).tiles j)) ∧
      (∀ s2, joinGame s a = .ok s2 → ∀ b, b ≠ a → s2.players b = s.players b) := by
  intro s a
  constructor
  · intro i inp s2 heq
    obtain ⟨v, hi, -, -, hp⟩ := build_ok_inv s a i inp s2 heq
    refine ⟨?_, ?_, ?_⟩
    · intro b hb
      rw [hp, Function.update_noteq hb]
    · rw [hp, Function.update_same]
    · intro j hj
      rw [hp, Function.update_same]
      exact Function.update_noteq (Fin.ne_of_val_ne hj) _ _
  · intro s2 heq b hb
    obtain ⟨-, hp⟩ := joinGame_ok_inv s a s2 heq
    rw [hp, Function.update_noteq hb]

/-- Witness for C8: a build by player 0 at tile 1 leaves player 3's
record, player 0's join flag and player 0's tile 0 unchanged, and a join
by player 0 leaves player 1's record unchanged. -/
theorem frame_only_target_changes_witness :
    (resultState sAllJoined (build sAllJoined 0 1 (some 2))).players 3 = sAllJoined.players 3 ∧
    ((resultState sAllJoined (build sAllJoined 0 1 (some 2))).players 0).joined
      = (sAllJoined.players 0).joined ∧
    ((resultState sAllJoined (build sAllJoined 0 1 (some 2))).players 0).tiles ⟨0, by decide⟩
      = (sAllJoined.players 0).tiles ⟨0, by decide⟩ ∧
    (resultState initialState (joinGame initialState 0)).players 1 = initialState.players 1 := by
  obtain ⟨hbuild, hjoin⟩ := frame_only_target_changes sAllJoined 0
  obtain ⟨hother, hflag, htiles⟩ :=
    hbuild 1 (some 2) (resultState sAllJoined (build sAllJoined 0 1 (some 2))) rfl
  obtain ⟨-, hjoinfr⟩ := frame_only_target_changes initialState 0
  exact ⟨hother 3 (by decide), hflag, htiles ⟨0, by decide⟩ (by decide),
    hjoinfr (resultState initialState (joinGame initialState 0)) rfl 1 (by decide)⟩

/-- Balance of the builder never increases across a successful build. -/
lemma build_balance_le (s : GameState) (a i : Nat) (inp : Option Nat) (s2 : GameState)
    (hb : (s.players a).balance.val < 2 ^ 32)
    (heq : build s a i inp = .ok s2) :
    (s2.players a).balance.val ≤ (s.players a).balance.val := by
  obtain ⟨v, hi, -, -, hp⟩ := build_ok_inv s a i inp s2 heq
  rw [hp, Function.update_same]
  simp only [allow_val, allowThis_val, selectCt_val]
  rcases Bool.eq_false_or_eq_true (commitPred (s.players a).balance.val (v % 2 ^ 8))
    with hc | hc
  · simp only [hc, if_true]
    have hle := ((commitPred_true_iff _ _).1 hc).2
    rw [subCt32_val_of_le _ _ (by rw [buildingCost_val, fromInput_val]; exact hle) hb]
    omega
  · rw [hc]
    simp

/-- Claim C9: in every reachable storage the decrypted balance of every
identity is at most 10000, and a successful build never increases the
builder's decrypted balance (the wrapped subtraction is never selected,
because commit requires balance ≥ cost). -/
theorem balance_never_increases :
    ∀ s, Reachable s →
      (∀ a, (s.players a).balance.val ≤ STARTING_BALANCE) ∧
      (∀ a i : Nat, ∀ inp : Option Nat, ∀ s2, build s a i inp = .ok s2 →
        (s2.players a).balance.val ≤ (s.players a).balance.val) := by
  have hinv : ∀ s, Reachable s → ∀ a, (s.players a).balance.val ≤ STARTING_BALANCE := by
    intro s hr
    induction hr with
    | init =>
      intro a
      simp [initialState, defaultPlayer]
    | join t b t2 hr2 heq ih =>
      intro c
      obtain ⟨-, hp⟩ := joinGame_ok_inv t b t2 heq
      by_cases hcb : c = b
      · subst hcb
        rw [hp, Function.update_same]
        simp only [allow_val, allowThis_val, asEuint32]
        exact Nat.mod_le _ _
      · rw [hp, Function.update_noteq hcb]
        exact ih c
    | step t b i inp t2 hr2 heq ih =>
      intro c
      by_cases hcb : c = b
      · subst hcb
        have hlt : (t.players c).balance.val < 2 ^ 32 :=
          lt_of_le_of_lt (ih c) (by norm_num [STARTING_BALANCE])
        exact le_trans (build_balance_le t c i inp t2 hlt heq) (ih c)
      · obtain ⟨v, hi, -, -, hp⟩ := build_ok_inv t b i inp t2 heq
        rw [hp, Function.update_noteq hcb]
        exact ih c
  intro s hr
  refine ⟨hinv s hr, ?_⟩
  intro a i inp s2 heq
  exact build_balance_le s a i inp s2
    (lt_of_le_of_lt (hinv s hr a) (by norm_num [STARTING_BALANCE])) heq

/-- Witness for C9: the deployment storage is reachable and its balances
are bounded by the starting balance. -/
theorem balance_never_increases_witness :
    (initialState.players 0).balance.val ≤ STARTING_BALANCE :=
  (balance_never_increases initialState Reachable.init).1 0

/-- Claim C10: build performs no occupancy check: on a tile already
holding a nonzero type, a build with a recognized affordable type
succeeds, overwrites the tile with the new type and deducts the new cost
again. -/
theorem build_no_occupancy_check :
    ∀ (s : GameState) (a i v : Nat) (hi : i < MAP_SIZE),
      (s.players a).joined = true →
      (s.players a).balance.val < 2 ^ 32 →
      ((s.players a).tiles ⟨i, hi⟩).val ≠ 0 →
      costOf (v % 2 ^ 8) ≠ 0 →
      costOf (v % 2 ^ 8) ≤ (s.players a).balance.val →
      ∃ s2, build s a i (some v) = .ok s2 ∧
        ((s2.players a).tiles ⟨i, hi⟩).val = v % 2 ^ 8 ∧
        (s2.players a).balance.val = (s.players a).balance.val - costOf (v % 2 ^ 8) := by
  intro s a i v hi hj hb hocc hc hle
  have hcp : commitPred (s.players a).balance.val (v % 2 ^ 8) = true :=
    (commitPred_true_iff _ _).2 ⟨hc, hle⟩
  refine ⟨_, build_ok_char s a i v hj hi, ?_, ?_⟩
  · simp only [Function.update_same, allow_val, allowThis_val, selectCt_val, hcp, if_true,
      fromInput_val]
  · simp only [Function.update_same, allow_val, allowThis_val, selectCt_val, hcp, if_true]
    rw [subCt32_val_of_le _ _ (by rw [buildingCost_val, fromInput_val]; exact hle) hb,
      buildingCost_val, fromInput_val]

/-- Witness for C10: tile 0 of the occupied storage holds type 3; a build
of type 1 there overwrites it with 1 and deducts 100 more. -/
theorem build_no_occupancy_check_witness :
    ((sOccupied.players 0).tiles ⟨0, by decide⟩).val = 3 ∧
    (((resultState sOccupied (build sOccupied 0 0 (some 1))).players 0).tiles
      ⟨0, by decide⟩).val = 1 ∧
    ((resultState sOccupied (build sOccupied 0 0 (some 1))).players 0).balance.val = 9500 := by
  obtain ⟨s2, heq, ht, hbal⟩ := build_no_occupancy_check sOccupied 0 0 1 (by decide) rfl
    (by decide) (by decide) (by decide) (by decide)
  rw [heq]
  exact ⟨rfl, ht.trans (by decide), hbal.trans (by decide)⟩

end VeilGame
